import Mathlib

/- Shallow embedding of the doppio JVM core slice: the method/field model and
dispatch resolver of src/methods.ts and the classpath driver of src/jvm.coffee.
External collaborators (util, fs, path, ByteStream, ConstantPool, attributes)
are modelled from the specification where their code is not part of the slice;
each such definition is marked `Modelled from the spec:`. -/

/-- Modelled from the spec: util.Flags (not under src/) is a 16-bit access-flag
bitfield with at least STATIC (0x0008), VARARGS (0x0080), NATIVE (0x0100) and
ABSTRACT (0x0400), with a raw accessor and a setter for the NATIVE bit. -/
structure Flags where
  raw : Nat
deriving DecidableEq

def Flags.isStatic (f : Flags) : Bool := f.raw.testBit 3

def Flags.isNative (f : Flags) : Bool := f.raw.testBit 8

def Flags.isAbstract (f : Flags) : Bool := f.raw.testBit 10

def Flags.isVarArgs (f : Flags) : Bool := f.raw.testBit 7

def Flags.setNative (f : Flags) (b : Bool) : Flags :=
  if b then ⟨f.raw ||| 256⟩ else ⟨f.raw &&& 65279⟩

/-- Modelled from the spec: attributes.IAttribute (attributes.ts is not under
src/) answers getName(); the payload field stands for its kind-specific data
and distinguishes distinct attribute records. -/
structure Attr where
  name : String
  payload : Nat
deriving DecidableEq

/-- Embeds AbstractMethodField.get_attribute: first attribute with the given
name, or null. -/
def get_attribute (attrs : List Attr) (n : String) : Option Attr :=
  attrs.find? (fun a => a.name == n)

/-- Modelled from the spec: helper for the L<name>; token of
util.carr2descriptor: read up to and including the first semicolon; none when
the semicolon is missing (an incomplete token). -/
def takeUntilSemi : List Char → Option (List Char × List Char)
  | [] => none
  | c :: rest =>
    if c = ';' then some ([], rest)
    else
      match takeUntilSemi rest with
      | some (pre, post) => some (c :: pre, post)
      | none => none

inductive DescErr where
  | BadDescriptor
deriving DecidableEq

instance {ε α : Type} [DecidableEq ε] [DecidableEq α] : DecidableEq (Except ε α) := fun x y =>
  match x, y with
  | .ok a, .ok b => if h : a = b then .isTrue (by rw [h]) else .isFalse (by simp [h])
  | .error a, .error b => if h : a = b then .isTrue (by rw [h]) else .isFalse (by simp [h])
  | .ok _, .error _ => .isFalse (by simp)
  | .error _, .ok _ => .isFalse (by simp)

/-- Modelled from the spec: util.carr2descriptor (not under src/) consumes one
descriptor token from the front of a character array: a primitive letter in
{B,S,C,I,J,F,D,Z,V}, an object type L<name>;, or an array prefix followed by
another token; it yields none at the end of the input, and fails with
BadDescriptor on an incomplete token or an unknown leading character. -/
def carr2descriptor : List Char → Except DescErr (Option (String × List Char))
  | [] => .ok none
  | c :: rest =>
    if c = 'B' ∨ c = 'S' ∨ c = 'C' ∨ c = 'I' ∨ c = 'J' ∨ c = 'F' ∨ c = 'D' ∨ c = 'Z' ∨ c = 'V' then
      .ok (some (String.mk [c], rest))
    else if c = 'L' then
      match takeUntilSemi rest with
      | some (pre, post) => .ok (some (String.mk ('L' :: (pre ++ [';'])), post))
      | none => .error .BadDescriptor
    else if c = '[' then
      match carr2descriptor rest with
      | .ok (some (t, post)) => .ok (some (String.mk ('[' :: t.toList), post))
      | .ok none => .error .BadDescriptor
      | .error e => .error e
    else .error .BadDescriptor

/-- Embeds the token-collection loop of Method.parse_descriptor
(`while (field = util.carr2descriptor(param_carr)) param_types.push(field)`).
The fuel argument makes the recursion structural; every token consumes at
least one character, so fuel `l.length` always suffices (collectLoop_congr
shows the fuel value is irrelevant above that bound). -/
def collectLoop : Nat → List Char → Except DescErr (List String)
  | _, [] => .ok []
  | 0, _ :: _ => .error .BadDescriptor
  | Nat.succ f, l =>
    match carr2descriptor l with
    | .error e => .error e
    | .ok none => .ok []
    | .ok (some (t, rest)) =>
      match collectLoop f rest with
      | .ok ts => .ok (t :: ts)
      | .error e => .error e

def collectTokens (l : List Char) : Except DescErr (List String) :=
  collectLoop l.length l

/-- Embeds the parameter-region split of the regex
/\(([^)]*)\)(.*)/ in Method.parse_descriptor: chars up to the first close
paren, and the remainder after it. -/
def splitClose : List Char → Option (List Char × List Char)
  | [] => none
  | c :: rest =>
    if c = ')' then some ([], rest)
    else
      match splitClose rest with
      | some (pre, post) => some (c :: pre, post)
      | none => none

/-- Embeds the search of the regex /\(([^)]*)\)(.*)/: the match starts at the
first open paren that is followed by a close paren; none when the regex does
not match (the source then throws on match[1]). -/
def descriptorMatch : List Char → Option (List Char × List Char)
  | [] => none
  | c :: rest => if c = '(' then splitClose rest else descriptorMatch rest

structure DescInfo where
  param_types : List String
  param_bytes : Nat
  num_args : Nat
  return_type : String
deriving DecidableEq

/-- Embeds Method.parse_descriptor (methods.ts lines 182–206): split the
parameter region, collect tokens, sum the word sizes (2 for J/D else 1, plus
one implicit receiver word when non-static), and count arguments. A value of
none models the TypeError thrown when the regex does not match; an inner
error models the BadDescriptor throw escaping the token loop. -/
def parse_descriptor (isStatic : Bool) (raw : String) : Option (Except DescErr DescInfo) :=
  match descriptorMatch raw.toList with
  | none => none
  | some (pstr, rstr) =>
    match collectTokens pstr with
    | .error e => some (.error e)
    | .ok toks =>
      let pts := toks
      let pb0 := pts.foldl (fun acc p => acc + (if p = "D" ∨ p = "J" then 2 else 1)) 0
      let pb := if isStatic then pb0 else pb0 + 1
      let na := if isStatic then pts.length else pts.length + 1
      some (.ok ⟨pts, pb, na, String.mk rstr⟩)

/-- Modelled from the spec: util.descriptor2typestr (not under src/) turns a
reference internal name Lfoo/bar; into the binary name foo/bar, leaving other
forms alone. -/
def descriptor2typestr (s : String) : String :=
  match s.toList with
  | 'L' :: rest => String.mk rest.dropLast
  | _ => s

/-- Modelled from the spec: util.ext_classname (not under src/) renders an
internal name in external dotted form, e.g. Ljava/lang/Object; becomes
java.lang.Object. -/
def ext_classname (s : String) : String :=
  String.mk ((descriptor2typestr s).toList.map (fun c => if c = '/' then '.' else c))

/-- Identifies a JavaScript function value that can sit in a Method's code
slot: a body from the trapped_methods table, the deferred native binder
closure of Method.parse (capturing the class name, method signature and full
signature), or the inert NOP installed for registerNatives/initIDs. -/
inductive JsFn where
  | trap (owner methSig : String)
  | nativeBinder (clsName methSig sig : String)
  | nop
deriving DecidableEq

/-- Embeds the trapped_methods table of methods.ts (lines 19–69): owners in
binary-name form, each with the signatures it traps. -/
def trapped_methods : List (String × List String) :=
  [("java/lang/ref/Reference", ["<clinit>()V"]),
   ("java/lang/System", ["loadLibrary(Ljava/lang/String;)V"]),
   ("java/lang/Terminator", ["setup()V"]),
   ("java/util/concurrent/atomic/AtomicInteger", ["compareAndSet(II)Z"]),
   ("java/nio/Bits", ["byteOrder()Ljava/nio/ByteOrder;", "copyToByteArray(JLjava/lang/Object;JJ)V"]),
   ("java/nio/charset/Charset$3", ["run()Ljava/lang/Object;"])]

/-- Embeds getTrappedMethod (methods.ts lines 71–77): convert the internal
class name, then probe the table by owner and signature. -/
def getTrappedMethod (clsName methSig : String) : Option JsFn :=
  let cls := descriptor2typestr clsName
  match trapped_methods.find? (fun e => e.1 == cls) with
  | some e => if methSig ∈ e.2 then some (.trap cls methSig) else none
  | none => none

/-- Decides whether pat occurs as a contiguous substring of s. -/
def occursIn (pat : List Char) : List Char → Bool
  | [] => decide (pat = [])
  | c :: rest => pat.isPrefixOf (c :: rest) || occursIn pat rest

/-- Embeds s.indexOf(pat, 1) ≥ 0: an occurrence of pat starting at index one
or later. -/
def occursFrom1 (pat s : List Char) : Bool :=
  match s with
  | [] => false
  | _ :: rest => occursIn pat rest

/-- Embeds the code slot of a Method: unassigned (abstract), a function value,
or the result of get_attribute "Code" (which may be null). -/
inductive CodeVal where
  | undef
  | fn (f : JsFn)
  | attr (a : Option Attr)
deriving DecidableEq

def CodeVal.isFn : CodeVal → Bool
  | .fn _ => true
  | _ => false

/-- Embeds the Method record of methods.ts: the AbstractMethodField fields
(owner internal name, access flags, name, raw descriptor, attributes) plus the
derived descriptor fields and the code slot. -/
structure Method where
  clsName : String
  accessFlags : Flags
  name : String
  raw_descriptor : String
  attrs : List Attr
  param_types : List String
  param_bytes : Nat
  num_args : Nat
  return_type : String
  code : CodeVal
deriving DecidableEq

/-- Embeds Method.full_signature (methods.ts lines 213–215). -/
def Method.full_signature (m : Method) : String :=
  ext_classname m.clsName ++ "::" ++ m.name ++ m.raw_descriptor

/-- Embeds Method.getParamWordSize (methods.ts lines 222–224). -/
def Method.getParamWordSize (m : Method) : Nat := m.param_bytes

/-- Embeds Method.getNumberOfParameters (methods.ts lines 231–233). -/
def Method.getNumberOfParameters (m : Method) : Nat := m.num_args

/-- Embeds Method.getCodeAttribute (methods.ts lines 235–238): the assert
requires neither NATIVE nor ABSTRACT; on success the code slot is returned
as-is. none models an assertion failure. -/
def Method.getCodeAttribute (m : Method) : Option CodeVal :=
  if !m.accessFlags.isNative && !m.accessFlags.isAbstract then some m.code else none

/-- Embeds Method.getNativeFunction (methods.ts lines 240–243): the assert
requires NATIVE and a function-valued code slot. none models an assertion
failure. -/
def Method.getNativeFunction (m : Method) : Option JsFn :=
  match m.code with
  | .fn f => if m.accessFlags.isNative then some f else none
  | _ => none

/-- Embeds the code-resolution cascade at the end of Method.parse (methods.ts
lines 245–274): trapped override (forcing the NATIVE flag), native placeholder
(a NOP for ::registerNatives()V / ::initIDs()V signatures found at index ≥ 1,
else the deferred binder), nothing for abstract methods, else the first
attribute named Code. -/
def Method.resolveCode (m : Method) : Method :=
  let sig := m.full_signature
  let methSig := m.name ++ m.raw_descriptor
  match getTrappedMethod m.clsName methSig with
  | some f => { m with code := .fn f, accessFlags := m.accessFlags.setNative true }
  | none =>
    if m.accessFlags.isNative then
      if !occursFrom1 "::registerNatives()V".toList sig.toList &&
         !occursFrom1 "::initIDs()V".toList sig.toList then
        { m with code := .fn (.nativeBinder m.clsName methSig sig) }
      else
        { m with code := .fn .nop }
    else if !m.accessFlags.isAbstract then
      { m with code := .attr (get_attribute m.attrs "Code") }
    else m

/-- Embeds Method.parse (methods.ts 245–274) together with
AbstractMethodField.parse (91–97). The external ByteStream and ConstantPool
collaborators are summarized by the values they deliver: the 16-bit access
flag word and the resolved name and descriptor strings; the external
attributes.makeAttributes is summarized by the attribute list it returns.
none models the exception thrown out of parse_descriptor on a malformed
descriptor. -/
def Method.parseM (clsName : String) (flagWord : Nat) (nameStr rawDesc : String)
    (attrs : List Attr) : Option Method :=
  let flags : Flags := ⟨flagWord % 65536⟩
  match parse_descriptor flags.isStatic rawDesc with
  | none => none
  | some (.error _) => none
  | some (.ok d) =>
    some (Method.resolveCode
      ⟨clsName, flags, nameStr, rawDesc, attrs, d.param_types, d.param_bytes,
       d.num_args, d.return_type, .undef⟩)

/-- Embeds Method.isSignaturePolymorphic (methods.ts lines 414–418). -/
def Method.isSignaturePolymorphic (m : Method) : Bool :=
  m.clsName == "Ljava/lang/invoke/MethodHandle;" && m.accessFlags.isNative &&
    m.accessFlags.isVarArgs && m.raw_descriptor == "([Ljava/lang/Object;)Ljava/lang/Object;"

/- JavaScript argument values are modelled as Option V: some v is a defined
value, none is the undefined produced by reading an array out of bounds. -/

/-- Embeds the conversion loop of Method.convertArgs (methods.ts lines
375–379): one pushed value per parameter type, the source index advancing by
two for J/D and one otherwise. -/
def convertLoop {V : Type} (params : List (Option V)) : List String → Nat → List (Option V)
  | [], _ => []
  | p :: ps, argIdx =>
    params.getD argIdx none :: convertLoop params ps (argIdx + if p == "J" || p == "D" then 2 else 1)

/-- Embeds Method.convertArgs (methods.ts lines 363–381): for a
signature-polymorphic method, thread is prepended to the raw parameters;
otherwise the result starts with thread, continues with the receiver slot for
non-static methods, and then runs the conversion loop. -/
def Method.convertArgs {V : Type} (m : Method) (thread : V) (params : List (Option V)) :
    List (Option V) :=
  if m.isSignaturePolymorphic then some thread :: params
  else if m.accessFlags.isStatic then some thread :: convertLoop params m.param_types 0
  else some thread :: params.getD 0 none :: convertLoop params m.param_types 1

/-- Embeds Method.takeArgs (methods.ts lines 387–393): slice the last
param_bytes entries off the caller stack and truncate it; the pair holds the
returned parameters and the truncated stack. none models the RangeError from
assigning a negative array length when the stack is too short. -/
def Method.takeArgs {V : Type} (m : Method) (caller_stack : List V) :
    Option (List V × List V) :=
  if caller_stack.length < m.param_bytes then none
  else
    some (caller_stack.drop (caller_stack.length - m.param_bytes),
      caller_stack.take (caller_stack.length - m.param_bytes))

/-- Models the JavaScript array heap for the aliasing behaviour of
convertArgs: a store of arrays addressed by reference, so that in-place
mutation (unshift) and fresh allocation are observable. -/
structure ArrayStore (V : Type) where
  arrays : List (List (Option V))
deriving DecidableEq

/-- Store-passing rendering of Method.convertArgs (methods.ts lines 363–381):
the signature-polymorphic branch unshifts thread onto the caller's params
array in place and returns the same reference; the other branch builds the
converted argument list in a freshly allocated array and returns the new
reference. -/
def Method.convertArgsRef {V : Type} (m : Method) (thread : V) (pRef : Nat)
    (st : ArrayStore V) : ArrayStore V × Nat :=
  let params := st.arrays.getD pRef []
  if m.isSignaturePolymorphic then
    (⟨st.arrays.set pRef (some thread :: params)⟩, pRef)
  else
    (⟨st.arrays ++ [m.convertArgs thread params]⟩, st.arrays.length)

/- Classpath driver of src/jvm.coffee. -/

/-- Models the node fs collaborator: existsSync, and readFileSync either
returning the file contents (as the byte list that util.bytestr_to_array
yields from the binary string) or raising an I/O error identified by a
number. -/
structure FileSys where
  existsSync : String → Bool
  readRes : String → Except Nat (List Nat)

/-- Failure values delivered to failure_cb by read_classfile: the thunk
rethrowing a caught I/O error, or the thunk throwing the class-not-found
Error naming the binary class name. -/
inductive CPFailure where
  | ioError (e : Nat)
  | notFound (cls : String)
deriving DecidableEq

/-- Callback invocations observable during one read_classfile call. -/
inductive CPEvent where
  | onBytes (data : List Nat)
  | onFailure (f : CPFailure)
deriving DecidableEq

/-- Embeds the cls[1...-1] slice of read_classfile: drop the leading L and
the trailing semicolon. -/
def stripDescriptor (cls : String) : String :=
  String.mk (cls.toList.drop 1).dropLast

/-- Embeds the search loop of read_classfile (jvm.coffee lines 18–27): skip
entries whose file does not exist; on the first existing file, read it and
deliver the bytes (or, if reading throws, deliver the I/O failure); falling
off the end delivers the not-found failure. The returned list is the sequence
of callback invocations. -/
def read_classfile_loop (fs : FileSys) (cls : String) : List String → List CPEvent
  | [] => [.onFailure (.notFound cls)]
  | p :: rest =>
    let filename := p ++ "/" ++ cls ++ ".class"
    if fs.existsSync filename then
      match fs.readRes filename with
      | .ok data => [.onBytes data]
      | .error e => [.onFailure (.ioError e)]
    else read_classfile_loop fs cls rest

/-- Embeds read_classfile (jvm.coffee lines 16–29). -/
def read_classfile (fs : FileSys) (classpath : List String) (cls : String) : List CPEvent :=
  read_classfile_loop fs (stripDescriptor cls) classpath

/-- Embeds the split on the list separator in set_classpath
(classpath.split(':')), over the character list of the string. -/
def splitColon : List Char → List (List Char)
  | [] => [[]]
  | c :: rest =>
    if c = ':' then [] :: splitColon rest
    else
      match splitColon rest with
      | [] => [[c]]
      | g :: gs => (c :: g) :: gs

/-- Embeds the trailing-separator step of set_classpath: append a slash
unless the last character already is one (the empty string gets one, since
charAt of an empty string is not a slash). -/
def withSlash (s : String) : String :=
  if s.toList.getLast? = some '/' then s else s ++ "/"

/-- Embeds set_classpath (jvm.coffee lines 38–53): split the user classpath
on the separator, push the JCL path, then for each entry normalize it, ensure
a trailing slash, and keep it only when the directory exists. The node
path.normalize collaborator is a parameter. -/
def set_classpath (normalize : String → String) (fs : FileSys)
    (jcl_path userClasspath : String) : List String :=
  let entries := (splitColon userClasspath.toList).map String.mk ++ [jcl_path]
  entries.foldl
    (fun acc cp =>
      let cp1 := withSlash (normalize cp)
      if fs.existsSync cp1 then acc ++ [cp1] else acc) []

/-- Word size of one parameter descriptor: two machine words for long and
double, one otherwise (spec-side formulation for C4). -/
def wordStep (p : String) : Nat := if p = "J" ∨ p = "D" then 2 else 1

/-- Spec-side source index of the i-th parameter in the raw two-slot argument
array: the receiver offset plus the accumulated word sizes of the earlier
parameters. -/
def srcIndex (isStatic : Bool) (pts : List String) (i : Nat) : Nat :=
  (if isStatic then 0 else 1) + ((pts.take i).map wordStep).sum

/- Helper lemmas. -/

theorem setNative_true_isNative (f : Flags) : (f.setNative true).isNative = true := by
  simp [Flags.setNative, Flags.isNative, Nat.testBit_lor]
  exact Or.inr (by decide)

theorem setNative_true_isStatic (f : Flags) : (f.setNative true).isStatic = f.isStatic := by
  have h : (256 : Nat).testBit 3 = false := by decide
  simp [Flags.setNative, Flags.isStatic, Nat.testBit_lor, h]

theorem setNative_true_isAbstract (f : Flags) : (f.setNative true).isAbstract = f.isAbstract := by
  have h : (256 : Nat).testBit 10 = false := by decide
  simp [Flags.setNative, Flags.isAbstract, Nat.testBit_lor, h]

theorem takeUntilSemi_reconstruct :
    ∀ {l pre post : List Char}, takeUntilSemi l = some (pre, post) → pre ++ ';' :: post = l := by
  intro l
  induction l with
  | nil => intro pre post h; simp [takeUntilSemi] at h
  | cons c rest ih =>
    intro pre post h
    by_cases hc : c = ';'
    · subst hc
      simp [takeUntilSemi] at h
      obtain ⟨h1, h2⟩ := h
      subst h1; subst h2; rfl
    · simp [takeUntilSemi, hc] at h
      cases hts : takeUntilSemi rest with
      | none => rw [hts] at h; simp at h
      | some pq =>
        rw [hts] at h
        obtain ⟨pre', post'⟩ := pq
        simp at h
        obtain ⟨h1, h2⟩ := h
        subst h1; subst h2
        simpa using ih hts

theorem carr2descriptor_reconstruct :
    ∀ {l : List Char} {t : String} {rest : List Char},
      carr2descriptor l = .ok (some (t, rest)) → t.toList ++ rest = l := by
  intro l
  induction l with
  | nil => intro t rest h; simp [carr2descriptor] at h
  | cons c cs ih =>
    intro t rest h
    by_cases hprim : c = 'B' ∨ c = 'S' ∨ c = 'C' ∨ c = 'I' ∨ c = 'J' ∨ c = 'F' ∨ c = 'D' ∨
        c = 'Z' ∨ c = 'V'
    · simp only [carr2descriptor, if_pos hprim] at h
      simp at h
      obtain ⟨h1, h2⟩ := h
      subst h1; subst h2; rfl
    · by_cases hL : c = 'L'
      · subst hL
        simp only [carr2descriptor, if_neg hprim, if_pos rfl] at h
        cases hts : takeUntilSemi cs with
        | none => rw [hts] at h; simp at h
        | some pq =>
          rw [hts] at h
          obtain ⟨pre, post⟩ := pq
          simp at h
          obtain ⟨h1, h2⟩ := h
          subst h1; subst h2
          have := takeUntilSemi_reconstruct hts
          simp [String.toList]
          exact this
      · by_cases hA : c = '['
        · subst hA
          simp only [carr2descriptor, if_neg hprim, if_neg hL, if_pos rfl] at h
          cases hc : carr2descriptor cs with
          | error e => rw [hc] at h; simp at h
          | ok o =>
            rw [hc] at h
            cases o with
            | none => simp at h
            | some tp =>
              obtain ⟨t', rest'⟩ := tp
              simp at h
              obtain ⟨h1, h2⟩ := h
              subst h1; subst h2
              have := ih hc
              simp [String.toList] at this ⊢
              exact this
        · simp [carr2descriptor, hprim, hL, hA] at h

theorem carr2descriptor_shrink :
    ∀ {l : List Char} {t : String} {rest : List Char},
      carr2descriptor l = .ok (some (t, rest)) → rest.length < l.length := by
  intro l
  induction l with
  | nil => intro t rest h; simp [carr2descriptor] at h
  | cons c cs ih =>
    intro t rest h
    by_cases hprim : c = 'B' ∨ c = 'S' ∨ c = 'C' ∨ c = 'I' ∨ c = 'J' ∨ c = 'F' ∨ c = 'D' ∨
        c = 'Z' ∨ c = 'V'
    · simp only [carr2descriptor, if_pos hprim] at h
      simp at h
      obtain ⟨_, h2⟩ := h
      subst h2
      simp
    · by_cases hL : c = 'L'
      · subst hL
        simp only [carr2descriptor, if_neg hprim, if_pos rfl] at h
        cases hts : takeUntilSemi cs with
        | none => rw [hts] at h; simp at h
        | some pq =>
          rw [hts] at h
          obtain ⟨pre, post⟩ := pq
          simp at h
          obtain ⟨_, h2⟩ := h
          subst h2
          have hlen := congrArg List.length (takeUntilSemi_reconstruct hts)
          simp at hlen
          simp
          omega
      · by_cases hA : c = '['
        · subst hA
          simp only [carr2descriptor, if_neg hprim, if_neg hL, if_pos rfl] at h
          cases hc : carr2descriptor cs with
          | error e => rw [hc] at h; simp at h
          | ok o =>
            rw [hc] at h
            cases o with
            | none => simp at h
            | some tp =>
              obtain ⟨t', rest'⟩ := tp
              simp at h
              obtain ⟨_, h2⟩ := h
              subst h2
              have := ih hc
              simp
              omega
        · simp [carr2descriptor, hprim, hL, hA] at h

theorem carr2descriptor_cons_ne_none (c : Char) (cs : List Char) :
    carr2descriptor (c :: cs) ≠ .ok none := by
  intro h
  by_cases hprim : c = 'B' ∨ c = 'S' ∨ c = 'C' ∨ c = 'I' ∨ c = 'J' ∨ c = 'F' ∨ c = 'D' ∨
      c = 'Z' ∨ c = 'V'
  · simp [carr2descriptor, hprim] at h
  · by_cases hL : c = 'L'
    · subst hL
      simp only [carr2descriptor, if_neg hprim, if_pos rfl] at h
      cases hts : takeUntilSemi cs with
      | none => rw [hts] at h; simp at h
      | some pq => rw [hts] at h; simp at h
    · by_cases hA : c = '['
      · subst hA
        simp only [carr2descriptor, if_neg hprim, if_neg hL, if_pos rfl] at h
        cases hc : carr2descriptor cs with
        | error e => rw [hc] at h; simp at h
        | ok o =>
          rw [hc] at h
          cases o with
          | none => simp at h
          | some tp => simp at h
      · simp [carr2descriptor, hprim, hL, hA] at h

theorem collectLoop_congr :
    ∀ (f₁ : Nat) (l : List Char) (f₂ : Nat), l.length ≤ f₁ → l.length ≤ f₂ →
      collectLoop f₁ l = collectLoop f₂ l := by
  intro f₁
  induction f₁ with
  | zero =>
    intro l f₂ h1 _
    have : l = [] := List.eq_nil_of_length_eq_zero (Nat.le_zero.mp h1)
    subst this
    cases f₂ <;> rfl
  | succ g ih =>
    intro l f₂ h1 h2
    cases l with
    | nil => cases f₂ <;> rfl
    | cons c cs =>
      cases f₂ with
      | zero => simp at h2
      | succ g2 =>
        simp at h1 h2
        simp only [collectLoop]
        cases hc : carr2descriptor (c :: cs) with
        | error e => rfl
        | ok o =>
          cases o with
          | none => rfl
          | some tp =>
            obtain ⟨t, rest⟩ := tp
            have hlt := carr2descriptor_shrink hc
            simp at hlt
            dsimp only
            rw [ih rest g2 (by omega) (by omega)]

theorem collectLoop_join :
    ∀ (fuel : Nat) (l : List Char) (ts : List String), l.length ≤ fuel →
      collectLoop fuel l = .ok ts → (ts.map String.toList).flatten = l := by
  intro fuel
  induction fuel with
  | zero =>
    intro l ts h1 h2
    have : l = [] := List.eq_nil_of_length_eq_zero (Nat.le_zero.mp h1)
    subst this
    simp [collectLoop] at h2
    subst h2
    rfl
  | succ g ih =>
    intro l ts h1 h2
    cases l with
    | nil =>
      simp [collectLoop] at h2
      subst h2
      rfl
    | cons c cs =>
      simp at h1
      simp only [collectLoop] at h2
      cases hc : carr2descriptor (c :: cs) with
      | error e => rw [hc] at h2; simp at h2
      | ok o =>
        rw [hc] at h2
        cases o with
        | none => exact absurd hc (carr2descriptor_cons_ne_none c cs)
        | some tp =>
          obtain ⟨t, rest⟩ := tp
          dsimp only at h2
          have hlt := carr2descriptor_shrink hc
          simp at hlt
          cases hrec : collectLoop g rest with
          | error e => rw [hrec] at h2; simp at h2
          | ok ts' =>
            rw [hrec] at h2
            simp at h2
            subst h2
            have hj := ih rest ts' (by omega) hrec
            have hr := carr2descriptor_reconstruct hc
            simp [hj]
            exact hr

theorem collectTokens_join {l : List Char} {ts : List String}
    (h : collectTokens l = .ok ts) : (ts.map String.toList).flatten = l :=
  collectLoop_join l.length l ts (Nat.le_refl _) h

theorem foldl_weight (f : String → Nat) :
    ∀ (l : List String) (a : Nat),
      l.foldl (fun acc p => acc + f p) a = a + (l.map f).sum := by
  intro l
  induction l with
  | nil => intro a; simp
  | cons p ps ih =>
    intro a
    simp [List.foldl_cons, ih (a + f p)]
    omega

theorem parse_descriptor_sizes {isStatic : Bool} {raw : String} {d : DescInfo}
    (h : parse_descriptor isStatic raw = some (.ok d)) :
    d.param_bytes =
        (d.param_types.map (fun p => if p = "J" ∨ p = "D" then 2 else 1)).sum +
          (if isStatic then 0 else 1) ∧
      d.num_args = d.param_types.length + (if isStatic then 0 else 1) := by
  have hw : (fun p => if p = "D" ∨ p = "J" then 2 else 1) =
      (fun p : String => if p = "J" ∨ p = "D" then 2 else 1) := by
    funext p
    by_cases h1 : p = "D" <;> by_cases h2 : p = "J" <;> simp [h1, h2]
  simp only [parse_descriptor] at h
  cases hm : descriptorMatch raw.toList with
  | none => rw [hm] at h; simp at h
  | some pr =>
    rw [hm] at h
    obtain ⟨pstr, rstr⟩ := pr
    cases hc : collectTokens pstr with
    | error e => simp [hc] at h
    | ok toks =>
      simp only [hc] at h
      simp at h
      cases h
      simp [foldl_weight, hw]
      cases isStatic <;> simp [Nat.add_comm]

theorem resolveCode_preserves (m : Method) :
    (m.resolveCode).param_types = m.param_types ∧
      (m.resolveCode).param_bytes = m.param_bytes ∧
      (m.resolveCode).num_args = m.num_args ∧
      (m.resolveCode).accessFlags.isStatic = m.accessFlags.isStatic ∧
      (m.resolveCode).clsName = m.clsName ∧
      (m.resolveCode).name = m.name ∧
      (m.resolveCode).raw_descriptor = m.raw_descriptor := by
  cases ht : getTrappedMethod m.clsName (m.name ++ m.raw_descriptor) with
  | some f => simp [Method.resolveCode, ht, setNative_true_isStatic]
  | none =>
    simp only [Method.resolveCode, ht]
    split
    · split <;> simp
    · split <;> simp

theorem resolveCode_native_fn (m : Method) :
    (m.resolveCode).accessFlags.isNative = true → (m.resolveCode).code.isFn = true := by
  cases ht : getTrappedMethod m.clsName (m.name ++ m.raw_descriptor) with
  | some f => simp [Method.resolveCode, ht, CodeVal.isFn]
  | none =>
    simp only [Method.resolveCode, ht]
    split
    · split <;> simp [CodeVal.isFn]
    · rename_i hnn
      split
      · intro hcontra
        exact absurd hcontra hnn
      · intro hcontra
        exact absurd hcontra hnn

/-- C1: any parsed method whose (owner, name+descriptor) key is in the
trapped-method table ends up with the NATIVE flag forced, the trap function
in its code slot, and getNativeFunction returning that trap body. -/
theorem trap_forces_native (clsName : String) (fw : Nat) (nm rd : String)
    (attrs : List Attr) (m : Method) (f : JsFn)
    (hp : Method.parseM clsName fw nm rd attrs = some m)
    (ht : getTrappedMethod clsName (nm ++ rd) = some f) :
    m.accessFlags.isNative = true ∧ m.code = .fn f ∧ m.getNativeFunction = some f := by
  simp only [Method.parseM] at hp
  cases hpd : parse_descriptor (Flags.isStatic ⟨fw % 65536⟩) rd with
  | none => rw [hpd] at hp; simp at hp
  | some r =>
    rw [hpd] at hp
    cases r with
    | error e => simp at hp
    | ok d =>
      simp at hp
      subst hp
      simp only [Method.resolveCode, ht]
      simp [Method.getNativeFunction, setNative_true_isNative]

/-- C1 witness: the trapped java/lang/ref/Reference.<clinit>()V method. -/
theorem trap_forces_native_witness :
    Method.parseM "Ljava/lang/ref/Reference;" 8 "<clinit>" "()V" [] =
        some ⟨"Ljava/lang/ref/Reference;", ⟨264⟩, "<clinit>", "()V", [], [], 0, 0, "V",
          .fn (.trap "java/lang/ref/Reference" "<clinit>()V")⟩ ∧
      getTrappedMethod "Ljava/lang/ref/Reference;" ("<clinit>" ++ "()V") =
        some (.trap "java/lang/ref/Reference" "<clinit>()V") ∧
      (⟨"Ljava/lang/ref/Reference;", ⟨264⟩, "<clinit>", "()V", [], [], 0, 0, "V",
          .fn (.trap "java/lang/ref/Reference" "<clinit>()V")⟩ : Method).accessFlags.isNative =
          true ∧
      (⟨"Ljava/lang/ref/Reference;", ⟨264⟩, "<clinit>", "()V", [], [], 0, 0, "V",
          .fn (.trap "java/lang/ref/Reference" "<clinit>()V")⟩ : Method).code =
        .fn (.trap "java/lang/ref/Reference" "<clinit>()V") ∧
      (⟨"Ljava/lang/ref/Reference;", ⟨264⟩, "<clinit>", "()V", [], [], 0, 0, "V",
          .fn (.trap "java/lang/ref/Reference" "<clinit>()V")⟩ : Method).getNativeFunction =
        some (.trap "java/lang/ref/Reference" "<clinit>()V") := by
  refine ⟨by decide, by decide, ?_⟩
  have h := trap_forces_native "Ljava/lang/ref/Reference;" 8 "<clinit>" "()V" []
    ⟨"Ljava/lang/ref/Reference;", ⟨264⟩, "<clinit>", "()V", [], [], 0, 0, "V",
      .fn (.trap "java/lang/ref/Reference" "<clinit>()V")⟩
    (.trap "java/lang/ref/Reference" "<clinit>()V") (by decide) (by decide)
  exact h

/-- C3: for every parsed method, getParamWordSize is the sum of the parameter
word sizes (two for J and D, one otherwise) plus one for the receiver of a
non-static method, and getNumberOfParameters counts the parameter types plus
one for the receiver. -/
theorem param_sizing (clsName : String) (fw : Nat) (nm rd : String) (attrs : List Attr)
    (m : Method) (hp : Method.parseM clsName fw nm rd attrs = some m) :
    m.getParamWordSize =
        (m.param_types.map (fun p => if p = "J" ∨ p = "D" then 2 else 1)).sum +
          (if m.accessFlags.isStatic then 0 else 1) ∧
      m.getNumberOfParameters =
        m.param_types.length + (if m.accessFlags.isStatic then 0 else 1) := by
  simp only [Method.parseM] at hp
  cases hpd : parse_descriptor (Flags.isStatic ⟨fw % 65536⟩) rd with
  | none => rw [hpd] at hp; simp at hp
  | some r =>
    rw [hpd] at hp
    cases r with
    | error e => simp at hp
    | ok d =>
      simp at hp
      subst hp
      obtain ⟨hb, hn⟩ := parse_descriptor_sizes hpd
      obtain ⟨hpt, hpb, hna, hst, -⟩ := resolveCode_preserves
        ⟨clsName, ⟨fw % 65536⟩, nm, rd, attrs, d.param_types, d.param_bytes,
          d.num_args, d.return_type, .undef⟩
      constructor
      · rw [Method.getParamWordSize, hpb, hpt, hst]
        exact hb
      · rw [Method.getNumberOfParameters, hna, hpt, hst]
        exact hn

/-- C3 witness: the static descriptor (IJLjava/lang/String;[D)V with word
size five and four parameters. -/
theorem param_sizing_witness :
    Method.parseM "LA;" 8 "f" "(IJLjava/lang/String;[D)V" [] =
        some ⟨"LA;", ⟨8⟩, "f", "(IJLjava/lang/String;[D)V", [],
          ["I", "J", "Ljava/lang/String;", "[D"], 5, 4, "V", .attr none⟩ ∧
      (⟨"LA;", ⟨8⟩, "f", "(IJLjava/lang/String;[D)V", [],
          ["I", "J", "Ljava/lang/String;", "[D"], 5, 4, "V", .attr none⟩ : Method).getParamWordSize =
          ((["I", "J", "Ljava/lang/String;", "[D"] : List String).map
              (fun p => if p = "J" ∨ p = "D" then 2 else 1)).sum + 0 ∧
      (⟨"LA;", ⟨8⟩, "f", "(IJLjava/lang/String;[D)V", [],
          ["I", "J", "Ljava/lang/String;", "[D"], 5, 4, "V", .attr none⟩ : Method).getNumberOfParameters = 4 := by
  refine ⟨by decide, ?_, by decide⟩
  have h := param_sizing "LA;" 8 "f" "(IJLjava/lang/String;[D)V" []
    ⟨"LA;", ⟨8⟩, "f", "(IJLjava/lang/String;[D)V", [],
      ["I", "J", "Ljava/lang/String;", "[D"], 5, 4, "V", .attr none⟩ (by decide)
  simpa using h.1

theorem getNativeFunction_isSome (m : Method) :
    (m.getNativeFunction).isSome = (m.accessFlags.isNative && m.code.isFn) := by
  cases hc : m.code with
  | fn f =>
    cases hn : m.accessFlags.isNative <;>
      simp [Method.getNativeFunction, CodeVal.isFn, hc, hn]
  | undef => simp [Method.getNativeFunction, CodeVal.isFn, hc]
  | attr a => simp [Method.getNativeFunction, CodeVal.isFn, hc]

theorem getCodeAttribute_isSome (m : Method) :
    (m.getCodeAttribute).isSome = (!m.accessFlags.isNative && !m.accessFlags.isAbstract) := by
  by_cases h : (!m.accessFlags.isNative && !m.accessFlags.isAbstract) = true
  · simp [Method.getCodeAttribute, h]
  · simp only [Bool.not_eq_true] at h
    simp [Method.getCodeAttribute, h]

/-- C2 counterexample: the class file flag word 0x500 declares a method both
ABSTRACT and NATIVE; Method.parse resolves NATIVE first, so this parsed
ABSTRACT method has a succeeding getNativeFunction, refuting the clause that
both accessors fail for every ABSTRACT method. -/
theorem code_variant_abstract_counterexample :
    Method.parseM "LFoo;" 1280 "bar" "()V" [] =
        some ⟨"LFoo;", ⟨1280⟩, "bar", "()V", [], [], 1, 1, "V",
          .fn (.nativeBinder "LFoo;" "bar()V" "Foo::bar()V")⟩ ∧
      (⟨"LFoo;", ⟨1280⟩, "bar", "()V", [], [], 1, 1, "V",
          .fn (.nativeBinder "LFoo;" "bar()V" "Foo::bar()V")⟩ : Method).accessFlags.isAbstract =
        true ∧
      (⟨"LFoo;", ⟨1280⟩, "bar", "()V", [], [], 1, 1, "V",
          .fn (.nativeBinder "LFoo;" "bar()V" "Foo::bar()V")⟩ : Method).getNativeFunction =
        some (.nativeBinder "LFoo;" "bar()V" "Foo::bar()V") := by
  decide

/-- C2 as amended: for every parsed method, getNativeFunction succeeds iff
the (post-parse) NATIVE flag is set and the code slot is a function — and
NATIVE implies a function-valued slot — getCodeAttribute succeeds iff the
method is neither NATIVE nor ABSTRACT, never both succeed, and for an
ABSTRACT method that is not NATIVE both fail. -/
theorem code_variant_exclusion (clsName : String) (fw : Nat) (nm rd : String)
    (attrs : List Attr) (m : Method)
    (hp : Method.parseM clsName fw nm rd attrs = some m) :
    (m.getNativeFunction).isSome = (m.accessFlags.isNative && m.code.isFn) ∧
      (m.accessFlags.isNative = true → m.code.isFn = true) ∧
      (m.getCodeAttribute).isSome = (!m.accessFlags.isNative && !m.accessFlags.isAbstract) ∧
      ¬((m.getNativeFunction).isSome = true ∧ (m.getCodeAttribute).isSome = true) ∧
      (m.accessFlags.isAbstract = true → m.accessFlags.isNative = false →
        m.getNativeFunction = none ∧ m.getCodeAttribute = none) := by
  have hfn : m.accessFlags.isNative = true → m.code.isFn = true := by
    simp only [Method.parseM] at hp
    cases hpd : parse_descriptor (Flags.isStatic ⟨fw % 65536⟩) rd with
    | none => rw [hpd] at hp; simp at hp
    | some r =>
      rw [hpd] at hp
      cases r with
      | error e => simp at hp
      | ok d =>
        simp at hp
        subst hp
        exact resolveCode_native_fn _
  refine ⟨getNativeFunction_isSome m, hfn, getCodeAttribute_isSome m, ?_, ?_⟩
  · rintro ⟨h1, h2⟩
    rw [getNativeFunction_isSome] at h1
    rw [getCodeAttribute_isSome] at h2
    cases hn : m.accessFlags.isNative <;> rw [hn] at h1 h2 <;> simp at h1 h2
  · intro _ hnn
    constructor
    · cases hc : m.code <;> simp [Method.getNativeFunction, hc, hnn]
    · rename_i ha
      simp [Method.getCodeAttribute, ha]

/-- C2 witness: a plain bytecode method, for which getCodeAttribute succeeds
and getNativeFunction fails. -/
theorem code_variant_exclusion_witness :
    Method.parseM "LA;" 8 "m" "()V" [⟨"Code", 7⟩] =
        some ⟨"LA;", ⟨8⟩, "m", "()V", [⟨"Code", 7⟩], [], 0, 0, "V", .attr (some ⟨"Code", 7⟩)⟩ ∧
      ((⟨"LA;", ⟨8⟩, "m", "()V", [⟨"Code", 7⟩], [], 0, 0, "V",
            .attr (some ⟨"Code", 7⟩)⟩ : Method).getNativeFunction).isSome = false ∧
      ((⟨"LA;", ⟨8⟩, "m", "()V", [⟨"Code", 7⟩], [], 0, 0, "V",
            .attr (some ⟨"Code", 7⟩)⟩ : Method).getCodeAttribute).isSome = true := by
  refine ⟨by decide, ?_⟩
  have h := code_variant_exclusion "LA;" 8 "m" "()V" [⟨"Code", 7⟩]
    ⟨"LA;", ⟨8⟩, "m", "()V", [⟨"Code", 7⟩], [], 0, 0, "V", .attr (some ⟨"Code", 7⟩)⟩ (by decide)
  refine ⟨?_, ?_⟩
  · rw [h.1]
    decide
  · rw [h.2.2.1]
    decide

theorem convertLoop_spec {V : Type} (params : List (Option V)) :
    ∀ (pts : List String) (k : Nat),
      convertLoop params pts k =
        (List.range pts.length).map
          (fun i => params.getD (k + ((pts.take i).map wordStep).sum) none) := by
  intro pts
  induction pts with
  | nil => intro k; simp [convertLoop]
  | cons p ps ih =>
    intro k
    have hstep : (if p == "J" || p == "D" then 2 else 1) = wordStep p := by
      by_cases h1 : p = "J" <;> by_cases h2 : p = "D" <;> simp [wordStep, h1, h2]
    simp only [convertLoop]
    rw [ih (k + if p == "J" || p == "D" then 2 else 1), hstep]
    rw [List.length_cons, List.range_succ_eq_map]
    rw [List.map_cons, List.map_map]
    congr 1
    apply List.map_congr_left
    intro a ha
    have heq : (((p :: ps).take (a + 1)).map wordStep).sum
        = wordStep p + ((ps.take a).map wordStep).sum := by
      rw [List.take_succ_cons, List.map_cons, List.sum_cons]
    show params.getD (k + wordStep p + ((ps.take a).map wordStep).sum) none
        = params.getD (k + (((p :: ps).take (a + 1)).map wordStep).sum) none
    rw [heq, ← Nat.add_assoc]

theorem convertLoop_length {V : Type} (params : List (Option V)) (pts : List String) (k : Nat) :
    (convertLoop params pts k).length = pts.length := by
  rw [convertLoop_spec]
  simp

/-- C4: convertArgs prepends the thread verbatim for signature-polymorphic
methods; otherwise it emits thread, the receiver for non-static methods, and
one value per parameter type taken at a source index advancing by two for J/D
and one otherwise, with the stated lengths. -/
theorem convertArgs_shape {V : Type} (m : Method) (t : V) (params : List (Option V))
    (hn : m.num_args = m.param_types.length + (if m.accessFlags.isStatic then 0 else 1)) :
    (m.isSignaturePolymorphic = true →
        m.convertArgs t params = some t :: params ∧
          (m.convertArgs t params).length = 1 + params.length) ∧
      (m.isSignaturePolymorphic = false →
        m.convertArgs t params =
            some t :: ((if m.accessFlags.isStatic then [] else [params.getD 0 none]) ++
              (List.range m.param_types.length).map
                (fun i => params.getD (srcIndex m.accessFlags.isStatic m.param_types i) none)) ∧
          (m.convertArgs t params).length = 1 + m.num_args) := by
  constructor
  · intro hsp
    simp [Method.convertArgs, hsp]
    omega
  · intro hsp
    cases hst : m.accessFlags.isStatic with
    | true =>
      rw [hst] at hn
      simp at hn
      simp only [Method.convertArgs, hsp, hst]
      constructor
      · simp [convertLoop_spec, srcIndex]
      · simp [convertLoop_length]
        omega
    | false =>
      rw [hst] at hn
      simp at hn
      simp only [Method.convertArgs, hsp, hst]
      constructor
      · simp [convertLoop_spec, srcIndex]
      · simp [convertLoop_length]
        omega

/-- C4 witness: a signature-polymorphic MethodHandle.invoke and concrete raw
parameters. -/
theorem convertArgs_shape_witness :
    (⟨"Ljava/lang/invoke/MethodHandle;", ⟨384⟩, "invoke",
          "([Ljava/lang/Object;)Ljava/lang/Object;", [], ["[Ljava/lang/Object;"], 2, 2,
          "Ljava/lang/Object;", .fn .nop⟩ : Method).num_args =
        (["[Ljava/lang/Object;"] : List String).length + 1 ∧
      (⟨"Ljava/lang/invoke/MethodHandle;", ⟨384⟩, "invoke",
          "([Ljava/lang/Object;)Ljava/lang/Object;", [], ["[Ljava/lang/Object;"], 2, 2,
          "Ljava/lang/Object;", .fn .nop⟩ : Method).convertArgs (0 : Nat)
          [some 5, none] = [some 0, some 5, none] := by
  constructor
  · decide
  · have h := convertArgs_shape
      (⟨"Ljava/lang/invoke/MethodHandle;", ⟨384⟩, "invoke",
        "([Ljava/lang/Object;)Ljava/lang/Object;", [], ["[Ljava/lang/Object;"], 2, 2,
        "Ljava/lang/Object;", .fn .nop⟩ : Method) (0 : Nat) [some 5, none] (by decide)
    rw [(h.1 (by decide)).1]

/-- C5: pushing exactly paramBytes values on a caller stack and then calling
takeArgs returns those values in order and restores the original stack. -/
theorem takeArgs_roundtrip {V : Type} (m : Method) (S P : List V)
    (h : P.length = m.param_bytes) :
    m.takeArgs (S ++ P) = some (P, S) := by
  simp only [Method.takeArgs]
  rw [if_neg]
  · have hsub : (S ++ P).length - m.param_bytes = S.length := by
      simp [← h]
    rw [hsub, List.drop_left' rfl, List.take_left' rfl]
  · simp [← h]

/-- C5 witness: two pushed words on a one-element caller stack. -/
theorem takeArgs_roundtrip_witness :
    ([4, 7] : List Nat).length =
        (⟨"LA;", ⟨8⟩, "m", "(II)V", [], ["I", "I"], 2, 2, "V", .attr none⟩ : Method).param_bytes ∧
      (⟨"LA;", ⟨8⟩, "m", "(II)V", [], ["I", "I"], 2, 2, "V",
          .attr none⟩ : Method).takeArgs ([9] ++ [4, 7]) = some ([4, 7], [9]) :=
  ⟨by decide,
    takeArgs_roundtrip ⟨"LA;", ⟨8⟩, "m", "(II)V", [], ["I", "I"], 2, 2, "V", .attr none⟩
      [9] [4, 7] (by decide)⟩

/-- C10: the store-passing convertArgs shows the aliasing split: the
non-signature-polymorphic branch allocates a fresh array (reference equal to
the old store size, distinct from the argument reference) holding the
converted arguments and leaves the caller's array untouched, while the
signature-polymorphic branch mutates the caller's array in place (prepending
the thread) and returns the same reference without growing the store. -/
theorem convertArgs_aliasing {V : Type} (m : Method) (t : V) (st : ArrayStore V) (pRef : Nat)
    (h : pRef < st.arrays.length) :
    (m.isSignaturePolymorphic = false →
        (m.convertArgsRef t pRef st).2 = st.arrays.length ∧
          (m.convertArgsRef t pRef st).2 ≠ pRef ∧
          (m.convertArgsRef t pRef st).1.arrays.getD pRef [] = st.arrays.getD pRef [] ∧
          (m.convertArgsRef t pRef st).1.arrays.getD st.arrays.length [] =
            m.convertArgs t (st.arrays.getD pRef []) ∧
          (m.convertArgsRef t pRef st).1.arrays.length = st.arrays.length + 1) ∧
      (m.isSignaturePolymorphic = true →
        (m.convertArgsRef t pRef st).2 = pRef ∧
          (m.convertArgsRef t pRef st).1.arrays.getD pRef [] =
            some t :: st.arrays.getD pRef [] ∧
          (m.convertArgsRef t pRef st).1.arrays.length = st.arrays.length) := by
  constructor
  · intro hsp
    have hif : m.convertArgsRef t pRef st =
        (⟨st.arrays ++ [m.convertArgs t (st.arrays.getD pRef [])]⟩, st.arrays.length) := by
      simp [Method.convertArgsRef, hsp]
    rw [hif]
    refine ⟨rfl, by omega, ?_, ?_, by simp⟩
    · exact List.getD_append _ _ _ _ h
    · show (st.arrays ++ [m.convertArgs t (st.arrays.getD pRef [])]).getD st.arrays.length [] = _
      rw [List.getD_append_right _ _ _ _ (Nat.le_refl _)]
      simp
  · intro hsp
    have hif : m.convertArgsRef t pRef st =
        (⟨st.arrays.set pRef (some t :: st.arrays.getD pRef [])⟩, pRef) := by
      simp [Method.convertArgsRef, hsp]
    rw [hif]
    refine ⟨rfl, ?_, by simp⟩
    show (st.arrays.set pRef (some t :: st.arrays.getD pRef [])).getD pRef [] = _
    rw [List.getD_eq_getElem?_getD, List.getElem?_set_self h]
    rfl

/-- C10 witness: a one-array store and a non-signature-polymorphic method. -/
theorem convertArgs_aliasing_witness :
    (0 : Nat) < (⟨[[some 3, some 4]]⟩ : ArrayStore Nat).arrays.length ∧
      ((⟨"LA;", ⟨8⟩, "m", "(I)V", [], ["I"], 1, 1, "V", .attr none⟩ : Method).convertArgsRef
          (9 : Nat) 0 ⟨[[some 3, some 4]]⟩).2 = 1 ∧
      ((⟨"LA;", ⟨8⟩, "m", "(I)V", [], ["I"], 1, 1, "V", .attr none⟩ : Method).convertArgsRef
          (9 : Nat) 0 ⟨[[some 3, some 4]]⟩).1.arrays.getD 0 [] = [some 3, some 4] := by
  refine ⟨by decide, ?_, ?_⟩
  · have h := convertArgs_aliasing
      (⟨"LA;", ⟨8⟩, "m", "(I)V", [], ["I"], 1, 1, "V", .attr none⟩ : Method) (9 : Nat)
      (⟨[[some 3, some 4]]⟩ : ArrayStore Nat) 0 (by decide)
    exact (h.1 (by decide)).1
  · have h := convertArgs_aliasing
      (⟨"LA;", ⟨8⟩, "m", "(I)V", [], ["I"], 1, 1, "V", .attr none⟩ : Method) (9 : Nat)
      (⟨[[some 3, some 4]]⟩ : ArrayStore Nat) 0 (by decide)
    exact (h.1 (by decide)).2.2.1

/-- C8: when the descriptor regex matches, the decoder either fails with
BadDescriptor or returns parameter tokens that jointly cover the whole
parameter region — it never silently truncates. -/
theorem descriptor_decoder_no_truncation (isStatic : Bool) (raw : String)
    (pstr rstr : List Char) (h : descriptorMatch raw.toList = some (pstr, rstr)) :
    parse_descriptor isStatic raw = some (.error .BadDescriptor) ∨
      ∃ d, parse_descriptor isStatic raw = some (.ok d) ∧
        (d.param_types.map String.toList).flatten = pstr := by
  have h' : descriptorMatch raw.data = some (pstr, rstr) := h
  cases hc : collectTokens pstr with
  | error e =>
    cases e
    left
    simp [parse_descriptor, h', hc]
  | ok toks =>
    right
    have hj := collectTokens_join hc
    simp only [parse_descriptor, h, h', hc]
    exact ⟨_, rfl, hj⟩

/-- C8 witness: the malformed parameter token X makes the decoder fail with
BadDescriptor. -/
theorem descriptor_decoder_no_truncation_witness :
    descriptorMatch "(X)V".toList = some (['X'], ['V']) ∧
      (parse_descriptor true "(X)V" = some (.error .BadDescriptor) ∨
        ∃ d, parse_descriptor true "(X)V" = some (.ok d) ∧
          (d.param_types.map String.toList).flatten = ['X']) :=
  ⟨by decide, descriptor_decoder_no_truncation true "(X)V" ['X'] ['V'] (by decide)⟩

theorem read_loop_skip (fs : FileSys) (cls : String) (pre rest : List String)
    (hpre : ∀ q ∈ pre, fs.existsSync (q ++ "/" ++ cls ++ ".class") = false) :
    read_classfile_loop fs cls (pre ++ rest) = read_classfile_loop fs cls rest := by
  induction pre with
  | nil => rfl
  | cons q qs ih =>
    have hq := hpre q (List.mem_cons_self q qs)
    rw [List.cons_append]
    simp only [read_classfile_loop, hq]
    simp only [Bool.false_eq_true, if_false]
    exact ih (fun r hr => hpre r (List.mem_cons_of_mem q hr))

theorem read_loop_length (fs : FileSys) (cls : String) :
    ∀ cp : List String, (read_classfile_loop fs cls cp).length = 1 := by
  intro cp
  induction cp with
  | nil => rfl
  | cons p rest ih =>
    simp only [read_classfile_loop]
    by_cases hq : fs.existsSync (p ++ "/" ++ cls ++ ".class") = true
    · simp only [hq, if_true]
      cases fs.readRes (p ++ "/" ++ cls ++ ".class") <;> simp
    · simp [hq, ih]

/-- C6: read_classfile searches the classpath in order and, at the first
entry whose file exists (and reads cleanly), delivers exactly those bytes to
the success callback without continuing the search. -/
theorem classpath_first_hit (fs : FileSys) (cls : String) (pre : List String) (p : String)
    (post : List String) (d : List Nat)
    (hpre : ∀ q ∈ pre, fs.existsSync (q ++ "/" ++ stripDescriptor cls ++ ".class") = false)
    (hex : fs.existsSync (p ++ "/" ++ stripDescriptor cls ++ ".class") = true)
    (hread : fs.readRes (p ++ "/" ++ stripDescriptor cls ++ ".class") = .ok d) :
    read_classfile fs (pre ++ p :: post) cls = [.onBytes d] := by
  rw [read_classfile, read_loop_skip fs (stripDescriptor cls) pre (p :: post) hpre]
  simp [read_classfile_loop, hex, hread]

/-- C6 witness: the class file exists with distinct bytes under both entries;
the earlier entry wins. -/
theorem classpath_first_hit_witness :
    read_classfile
        ⟨fun f => f == "/a//foo/Bar.class" || f == "/b//foo/Bar.class",
         fun f => if f == "/a//foo/Bar.class" then .ok [1] else .ok [2]⟩
        (([] : List String) ++ "/a/" :: ["/b/"]) "Lfoo/Bar;" = [.onBytes [1]] :=
  classpath_first_hit
    ⟨fun f => f == "/a//foo/Bar.class" || f == "/b//foo/Bar.class",
     fun f => if f == "/a//foo/Bar.class" then .ok [1] else .ok [2]⟩
    "Lfoo/Bar;" [] "/a/" ["/b/"] [1] (by simp) (by decide) (by decide)

/-- C7: one read_classfile call invokes exactly one callback exactly once:
the success callback with the bytes of the first existing entry when its read
succeeds, the failure callback with the I/O error when that read raises
(later entries are not searched), and the failure callback with
class-not-found when no entry has the file. -/
theorem read_callbacks_exactly_once (fs : FileSys) (classpath : List String) (cls : String) :
    (read_classfile fs classpath cls).length = 1 ∧
      ((∀ p ∈ classpath, fs.existsSync (p ++ "/" ++ stripDescriptor cls ++ ".class") = false) →
        read_classfile fs classpath cls = [.onFailure (.notFound (stripDescriptor cls))]) ∧
      (∀ pre p post e, classpath = pre ++ p :: post →
        (∀ q ∈ pre, fs.existsSync (q ++ "/" ++ stripDescriptor cls ++ ".class") = false) →
        fs.existsSync (p ++ "/" ++ stripDescriptor cls ++ ".class") = true →
        fs.readRes (p ++ "/" ++ stripDescriptor cls ++ ".class") = .error e →
        read_classfile fs classpath cls = [.onFailure (.ioError e)]) ∧
      (∀ pre p post d, classpath = pre ++ p :: post →
        (∀ q ∈ pre, fs.existsSync (q ++ "/" ++ stripDescriptor cls ++ ".class") = false) →
        fs.existsSync (p ++ "/" ++ stripDescriptor cls ++ ".class") = true →
        fs.readRes (p ++ "/" ++ stripDescriptor cls ++ ".class") = .ok d →
        read_classfile fs classpath cls = [.onBytes d]) := by
  refine ⟨read_loop_length fs (stripDescriptor cls) classpath, ?_, ?_, ?_⟩
  · intro hall
    rw [read_classfile, ← List.append_nil classpath,
      read_loop_skip fs (stripDescriptor cls) classpath [] hall]
    rfl
  · intro pre p post e hcp hpre hex hread
    subst hcp
    rw [read_classfile, read_loop_skip fs (stripDescriptor cls) pre (p :: post) hpre]
    simp [read_classfile_loop, hex, hread]
  · intro pre p post d hcp hpre hex hread
    subst hcp
    rw [read_classfile, read_loop_skip fs (stripDescriptor cls) pre (p :: post) hpre]
    simp [read_classfile_loop, hex, hread]

/-- C7 witness: an I/O error on the first existing entry is delivered to the
failure callback, masking the later hit. -/
theorem read_callbacks_exactly_once_witness :
    (read_classfile
        ⟨fun f => f == "/a//foo/Bar.class" || f == "/b//foo/Bar.class",
         fun f => if f == "/a//foo/Bar.class" then .error 5 else .ok [2]⟩
        ["/a/", "/b/"] "Lfoo/Bar;").length = 1 ∧
      read_classfile
          ⟨fun f => f == "/a//foo/Bar.class" || f == "/b//foo/Bar.class",
           fun f => if f == "/a//foo/Bar.class" then .error 5 else .ok [2]⟩
          ["/a/", "/b/"] "Lfoo/Bar;" = [.onFailure (.ioError 5)] := by
  have h := read_callbacks_exactly_once
    ⟨fun f => f == "/a//foo/Bar.class" || f == "/b//foo/Bar.class",
     fun f => if f == "/a//foo/Bar.class" then .error 5 else .ok [2]⟩
    ["/a/", "/b/"] "Lfoo/Bar;"
  exact ⟨h.1, h.2.2.1 [] "/a/" ["/b/"] 5 rfl (by simp) (by decide) (by decide)⟩

theorem foldl_pushIf (f : String → String) (pb : String → Bool) :
    ∀ (l : List String) (acc : List String),
      l.foldl (fun acc cp => if pb (f cp) then acc ++ [f cp] else acc) acc
        = acc ++ (l.map f).filter pb := by
  intro l
  induction l with
  | nil => intro acc; simp
  | cons a as ih =>
    intro acc
    simp only [List.foldl_cons, List.map_cons, List.filter_cons]
    by_cases h : pb (f a) = true
    · rw [if_pos h, ih (acc ++ [f a]), if_pos h]
      simp
    · rw [if_neg h, ih acc, if_neg h]

/-- C9 counterexample: when no directory exists — in particular the JCL root
is missing — every entry including the JCL path is filtered out, so the
effective classpath is empty and its final entry is not the JCL root. -/
theorem classpath_jcl_last_counterexample :
    set_classpath (fun s => s) ⟨fun _ => false, fun _ => .error 0⟩ "/jcl" "/a" = [] ∧
      (set_classpath (fun s => s) ⟨fun _ => false, fun _ => .error 0⟩ "/jcl" "/a").getLast?
        = none := by
  decide

/-- C9 as amended: the effective classpath is the user entries in order
followed by the JCL path, each normalized and slash-terminated, filtered to
the entries whose directory exists; the JCL path is appended unconditionally
before that filter, so whenever its directory exists it is the final entry. -/
theorem set_classpath_spec (normalize : String → String) (fs : FileSys)
    (jcl user : String) :
    set_classpath normalize fs jcl user =
        (((splitColon user.toList).map String.mk ++ [jcl]).map
            (fun cp => withSlash (normalize cp))).filter fs.existsSync ∧
      (fs.existsSync (withSlash (normalize jcl)) = true →
        (set_classpath normalize fs jcl user).getLast? = some (withSlash (normalize jcl))) := by
  have h1 : set_classpath normalize fs jcl user =
      (((splitColon user.toList).map String.mk ++ [jcl]).map
          (fun cp => withSlash (normalize cp))).filter fs.existsSync := by
    have h := foldl_pushIf (fun cp => withSlash (normalize cp)) fs.existsSync
      ((splitColon user.toList).map String.mk ++ [jcl]) []
    simpa [set_classpath] using h
  refine ⟨h1, ?_⟩
  intro hex
  have h2 : (((splitColon user.toList).map String.mk ++ [jcl]).map
        (fun cp => withSlash (normalize cp))).filter fs.existsSync =
      ((((splitColon user.toList).map String.mk).map
          (fun cp => withSlash (normalize cp))).filter fs.existsSync) ++
        [withSlash (normalize jcl)] := by
    rw [List.map_append, List.filter_append]
    simp [hex]
  rw [h1, h2]
  exact List.getLast?_concat _

/-- C9 witness: with an existing JCL directory the normalized JCL path closes
the effective classpath. -/
theorem set_classpath_spec_witness :
    set_classpath (fun s => s) ⟨fun f => f == "/jcl/", fun _ => .error 0⟩ "/jcl" "/a" =
        ((((splitColon ("/a" : String).toList).map String.mk ++ ["/jcl"]).map
            (fun cp => withSlash cp)).filter (fun f => f == "/jcl/")) ∧
      (set_classpath (fun s => s) ⟨fun f => f == "/jcl/", fun _ => .error 0⟩
          "/jcl" "/a").getLast? = some (withSlash "/jcl") := by
  have h := set_classpath_spec (fun s => s) ⟨fun f => f == "/jcl/", fun _ => .error 0⟩
    "/jcl" "/a"
  exact ⟨h.1, h.2 (by decide)⟩
